import Mathlib

/-!
Shallow embedding of `shell/common/native_mate_converters/callback.cc`.

The source file bridges native callbacks ("translaters") into a V8-hosted
scripting runtime:

* `TranslaterHolder` owns a translater plus a weak `v8::Global<v8::External>`
  whose finalizer (`TranslaterHolder::GC`) deletes the holder; the destructor
  clears the weak registration and resets the handle when it is still set.
* `CallTranslater` is the trampoline invoked from script with the bound
  external handle and a metadata `state` object; it enforces one-shot
  semantics through the `oneTime` / `called` keys of `state` and deletes the
  holder eagerly for one-shot callables right after `translater.Run`.
* `CreateFunctionFromTranslater` lazily caches a function template in the
  global `g_call_translater`, allocates a holder, builds the state record and
  binds the trampoline to `(external handle, state)` via `BindFunctionWith`.
* `RefCountedGlobal` / `SafeV8Function` form a ref-counted wrapper around a
  `v8::Global<v8::Function>` whose destruction is routed to the UI thread by
  `DeleteOnUIThread` when the last reference is dropped elsewhere.

We model the JS-visible metadata record as an association list of boolean
properties, the holder / weak-registration / reachability situation of one
generated callable as a `World`, and host activity (script invocations, the
caller dropping the callable, GC passes over unreachable values) as an event
trace interpreted by `step` / `exec`.  Argument lists passed to a callable
are abstracted as lists of naturals; a translater is a function from an
argument list and a world to a world, and `logRun` is the canonical
translater that just records the argument lists it receives, in order.
-/

/-- Argument list of one scripted invocation (`mate::Arguments`), with the
individual V8 argument values abstracted as naturals. -/
abbrev Args := List Nat

/-- The JS metadata object bound as `state`: an insertion-ordered record of
boolean-valued properties, as built by `mate::Dictionary` and mutated by
`state->Set`. -/
structure Dict where
  entries : List (String × Bool)
  deriving DecidableEq, Repr

/-- `mate::Dictionary::CreateEmpty`. -/
def Dict.empty : Dict := ⟨[]⟩

/-- Property-presence test, `state->Has(context, key)`. -/
def Dict.Has (d : Dict) (k : String) : Bool :=
  d.entries.any fun e => e.1 == k

/-- Assoc-list update: replace the first binding of `k` or append a new one.
This is the JS property-store effect of `state->Set(context, k, v)`. -/
def setEntries : List (String × Bool) → String → Bool → List (String × Bool)
  | [], k, v => [(k, v)]
  | e :: es, k, v => if e.1 == k then (k, v) :: es else e :: setEntries es k v

/-- `state->Set(context, k, v)`. -/
def Dict.Set (d : Dict) (k : String) (v : Bool) : Dict :=
  ⟨setEntries d.entries k v⟩

/-- Which of the two `delete holder` paths ran: the weak-reference finalizer
`TranslaterHolder::GC`, or the eager `delete holder` for one-shot callables
at the end of `CallTranslater`. -/
inductive DestroyPath where
  | finalizer
  | oneShot
  deriving DecidableEq, Repr

/-- State of one generated callable: its `TranslaterHolder`, the weak
registration of the holder's `v8::Global<v8::External>`, reachability of the
bound function from script, the bound metadata record, and the observable
history (translater runs and thrown errors). -/
structure World where
  /-- Script code still holds the bound function produced by
  `CreateFunctionFromTranslater`. -/
  reachable : Bool
  /-- The `TranslaterHolder` allocation is still live (not yet `delete`d). -/
  holderAlive : Bool
  /-- `handle.SetWeak(this, &GC, kFinalizer)` registration is still active
  (i.e. the global handle was neither `ClearWeak`ed nor `Reset`). -/
  weakRegistered : Bool
  /-- The `delete holder` events that have happened, in order, with the path
  that triggered each. -/
  destroyedBy : List DestroyPath
  /-- The bound metadata record. -/
  state : Dict
  /-- Argument lists with which `holder->translater.Run` was invoked, in
  order. -/
  log : List Args
  /-- Messages passed to `args->ThrowError` (or thrown by the translater
  itself), in order: the host-visible error channel. -/
  errors : List String
  deriving DecidableEq, Repr

/-- `delete holder`, running `~TranslaterHolder`: if the global handle is
still set, `ClearWeak` and `Reset` it, then release the allocation.  The
`DestroyPath` argument records which call site triggered the delete. -/
def destructHolder (p : DestroyPath) (w : World) : World :=
  let w := if w.weakRegistered then { w with weakRegistered := false } else w
  { w with holderAlive := false, destroyedBy := w.destroyedBy ++ [p] }

/-- The message passed to `args->ThrowError` when a one-shot callable is
invoked again. -/
def alreadyCalledMsg : String := "callback can only be called for once"

/-- The trampoline `CallTranslater(external, state, args)`.  `run` is the
behavior of `holder->translater.Run`; `logRun` below is the canonical
instance.  Mirrors the source: read `oneTime` from `state`; for one-shot
callables either throw if `called` is present or set `called` before running;
run the translater; delete the holder afterwards when one-shot. -/
def CallTranslater (run : Args → World → World) (w : World) (args : Args) : World :=
  let one_time := w.state.Has "oneTime"
  if one_time && w.state.Has "called" then
    { w with errors := w.errors ++ [alreadyCalledMsg] }
  else
    let w1 := if one_time then { w with state := w.state.Set "called" true } else w
    let w2 := run args w1
    if one_time then destructHolder DestroyPath.oneShot w2 else w2

/-- A translater that records the argument list it was invoked with. -/
def logRun (args : Args) (w : World) : World :=
  { w with log := w.log ++ [args] }

/-- A translater that records its argument list and also signals a
host-visible error while running (error taxonomy case 2 of the design:
native-callback failure, not intercepted by the trampoline). -/
def throwingRun (msg : String) (args : Args) (w : World) : World :=
  { w with log := w.log ++ [args], errors := w.errors ++ [msg] }

/-- A translater that records its argument list and then reentrantly invokes
the same trampoline with the same bound state, up to `n` levels deep. -/
def reentrantRun : Nat → Args → World → World
  | 0, args, w => logRun args w
  | n + 1, args, w => CallTranslater (reentrantRun n) (logRun args w) args

/-- The metadata record built by `CreateFunctionFromTranslater`:
`CreateEmpty`, then `state.Set("oneTime", true)` exactly when `one_time`. -/
def mkState (one_time : Bool) : Dict :=
  if one_time then Dict.empty.Set "oneTime" true else Dict.empty

/-- The value returned by `CreateFunctionFromTranslater`: the result of
binding the cached trampoline function (identified by `template`) to the
fresh holder's external handle and the metadata record `state`. -/
structure BoundFunction where
  template : Nat
  state : Dict
  deriving DecidableEq, Repr

/-- Process-wide state relevant to `CreateFunctionFromTranslater`: the cached
`g_call_translater` persistent (identified by a numeric id when set), a
supply of fresh template ids, and a count of how many times the cache was
written (`g_call_translater.Reset`). -/
structure Process where
  g_call_translater : Option Nat
  nextId : Nat
  cacheWrites : Nat
  deriving DecidableEq, Repr

/-- Process start: `g_call_translater` is an empty persistent. -/
def Process.init : Process := ⟨none, 0, 0⟩

/-- `CreateFunctionFromTranslater(isolate, translater, one_time)`: reset the
cached template if it is empty, allocate a holder, build the state record,
and bind the trampoline to `(holder->handle, state)`. -/
def CreateFunctionFromTranslater (p : Process) (one_time : Bool) :
    Process × BoundFunction :=
  match p.g_call_translater with
  | none =>
      ({ g_call_translater := some p.nextId, nextId := p.nextId + 1,
         cacheWrites := p.cacheWrites + 1 },
       ⟨p.nextId, mkState one_time⟩)
  | some t => (p, ⟨t, mkState one_time⟩)

/-- A sequence of `CreateFunctionFromTranslater` calls, one per element of
the list of `one_time` flags, returning the produced bound functions. -/
def runFactory (p : Process) : List Bool → Process × List BoundFunction
  | [] => (p, [])
  | b :: bs =>
      let r1 := CreateFunctionFromTranslater p b
      let r2 := runFactory r1.1 bs
      (r2.1, r1.2 :: r2.2)

/-- The world of one freshly created callable: holder allocated, weak
finalizer registered, bound function reachable from the caller, metadata
record exactly as built by `CreateFunctionFromTranslater`, no history. -/
def initWorld (one_time : Bool) : World :=
  { reachable := true
    holderAlive := true
    weakRegistered := true
    destroyedBy := []
    state := (CreateFunctionFromTranslater Process.init one_time).2.state
    log := []
    errors := [] }

/-- Host activity around one generated callable: a scripted invocation with
an argument list, the script dropping its last reference to the bound
function, and a GC pass (which fires the weak finalizer of an unreachable,
still-registered holder handle). -/
inductive Event where
  | invoke (args : Args)
  | drop
  | gc
  deriving DecidableEq, Repr

/-- One host step.  Invocation requires the bound function to still be
reachable (the caller needs it in hand to call it); GC fires the registered
`TranslaterHolder::GC` finalizer only on a holder whose external is no
longer reachable from script and whose weak registration is intact. -/
def step (w : World) : Event → World
  | Event.invoke args => if w.reachable then CallTranslater logRun w args else w
  | Event.drop => { w with reachable := false }
  | Event.gc =>
      if !w.reachable && w.weakRegistered then destructHolder DestroyPath.finalizer w
      else w

/-- Run a trace of host events. -/
def exec (w : World) : List Event → World
  | [] => w
  | e :: es => exec (step w e) es

/-- A pure-invocation trace carrying the given argument lists. -/
def invokes (as : List Args) : List Event :=
  as.map Event.invoke

/-- `RefCountedGlobal<T>`: a ref-counted `v8::Global`, modelled by its
underlying handle (`none` = empty handle, `some v` = handle to host value
`v`). -/
structure RefCountedGlobal where
  handle_ : Option Nat
  deriving DecidableEq, Repr

/-- The constructor `RefCountedGlobal(isolate, value)` from a live local
`value`. -/
def RefCountedGlobal.ofValue (value : Nat) : RefCountedGlobal :=
  ⟨some value⟩

/-- `IsAlive(): return !handle_.IsEmpty()`. -/
def RefCountedGlobal.IsAlive (g : RefCountedGlobal) : Bool :=
  g.handle_.isSome

/-- `NewHandle(isolate): return v8::Local<T>::New(isolate, handle_)` — an
empty global yields an empty local. -/
def RefCountedGlobal.NewHandle (g : RefCountedGlobal) : Option Nat :=
  g.handle_

/-- The underlying global handle being reset/cleared (e.g. at teardown of the
owning isolate): the one state change after which `IsAlive` is false. -/
def RefCountedGlobal.reset (_g : RefCountedGlobal) : RefCountedGlobal :=
  ⟨none⟩

/-- `SafeV8Function`: a `scoped_refptr<RefCountedGlobal<v8::Function>>`.
Both source constructors (`(isolate, value)` and copy) leave the pointer
non-null, so the wrapper is modelled by the pointee. -/
structure SafeV8Function where
  v8_function_ : RefCountedGlobal
  deriving DecidableEq, Repr

/-- `SafeV8Function(isolate, value)`. -/
def SafeV8Function.ofValue (value : Nat) : SafeV8Function :=
  ⟨RefCountedGlobal.ofValue value⟩

/-- `IsAlive(): return v8_function_.get() && v8_function_->IsAlive()`; the
pointer is always non-null for source-constructed wrappers. -/
def SafeV8Function.IsAlive (f : SafeV8Function) : Bool :=
  f.v8_function_.IsAlive

/-- `NewHandle(isolate): return v8_function_->NewHandle(isolate)`. -/
def SafeV8Function.NewHandle (f : SafeV8Function) : Option Nat :=
  f.v8_function_.NewHandle

/-- What `DeleteOnUIThread::Destruct` does with the object when the last
reference is dropped. -/
inductive DeleteAction where
  | deleteSoonOnUI
  | deleteInline
  deriving DecidableEq, Repr

/-- `DeleteOnUIThread::Destruct`: post the deletion to the UI thread when a
browser process is active and the current thread is not the UI thread;
otherwise delete inline. -/
def DeleteOnUIThreadDestruct (isBrowserProcess : Bool)
    (currentlyOnUIThread : Bool) : DeleteAction :=
  if isBrowserProcess && !currentlyOnUIThread then DeleteAction.deleteSoonOnUI
  else DeleteAction.deleteInline

/-- Invariant of a single generated callable's world, preserved by every
host event: the weak registration tracks the holder allocation, the holder
dies exactly when a destroy path has run, at most one destroy path ever
runs, the eager one-shot delete only happens on a callable whose `called`
marker is set, and the finalizer only fires once the bound function is
unreachable from script. -/
structure LifeInv (w : World) : Prop where
  weak_eq_alive : w.weakRegistered = w.holderAlive
  alive_iff : w.holderAlive = true ↔ w.destroyedBy = []
  destroyed_cases : w.destroyedBy = [] ∨ w.destroyedBy = [DestroyPath.finalizer] ∨
    w.destroyedBy = [DestroyPath.oneShot]
  oneshot_called : w.destroyedBy = [DestroyPath.oneShot] → w.state.Has "called" = true
  finalizer_unreachable : w.destroyedBy = [DestroyPath.finalizer] → w.reachable = false

/-! ### Lemmas about the metadata record -/

theorem anyKey_setEntries_self (l : List (String × Bool)) (k : String) (v : Bool) :
    (setEntries l k v).any (fun e => e.1 == k) = true := by
  induction l with
  | nil => simp [setEntries]
  | cons e es ih =>
      cases hbe : (e.1 == k) with
      | true => simp [setEntries, hbe]
      | false => simp [setEntries, hbe, ih]

theorem anyKey_setEntries_ne (l : List (String × Bool)) (k k1 : String) (v : Bool)
    (hne : k1 ≠ k) :
    (setEntries l k v).any (fun e => e.1 == k1) = l.any (fun e => e.1 == k1) := by
  induction l with
  | nil => simp [setEntries, beq_iff_eq, Ne.symm hne]
  | cons e es ih =>
      cases hbe : (e.1 == k) with
      | true =>
          have he : e.1 = k := eq_of_beq hbe
          simp [setEntries, hbe, he]
      | false => simp [setEntries, hbe, ih]

theorem Dict.Has_Set_self (d : Dict) (k : String) (v : Bool) :
    (d.Set k v).Has k = true := by
  unfold Dict.Has Dict.Set
  exact anyKey_setEntries_self d.entries k v

theorem Dict.Has_Set_ne (d : Dict) (k k1 : String) (v : Bool) (hne : k1 ≠ k) :
    (d.Set k v).Has k1 = d.Has k1 := by
  unfold Dict.Has Dict.Set
  exact anyKey_setEntries_ne d.entries k k1 v hne

theorem Dict.Has_Set_imp (d : Dict) (k k1 : String) (v : Bool)
    (h : (d.Set k v).Has k1 = true) : d.Has k1 = true ∨ k1 = k := by
  by_cases hk : k1 = k
  · exact Or.inr hk
  · rw [Dict.Has_Set_ne d k k1 v hk] at h
    exact Or.inl h

/-! ### Unfolding lemmas for the trampoline -/

theorem callTranslater_already (run : Args → World → World) (w : World) (args : Args)
    (hOT : w.state.Has "oneTime" = true) (hC : w.state.Has "called" = true) :
    CallTranslater run w args = { w with errors := w.errors ++ [alreadyCalledMsg] } := by
  simp [CallTranslater, hOT, hC]

theorem callTranslater_fresh (run : Args → World → World) (w : World) (args : Args)
    (hOT : w.state.Has "oneTime" = true) (hC : w.state.Has "called" = false) :
    CallTranslater run w args =
      destructHolder DestroyPath.oneShot
        (run args { w with state := w.state.Set "called" true }) := by
  simp [CallTranslater, hOT, hC]

theorem callTranslater_plain (run : Args → World → World) (w : World) (args : Args)
    (hOT : w.state.Has "oneTime" = false) :
    CallTranslater run w args = run args w := by
  simp [CallTranslater, hOT]

/-! ### Projections of the holder destructor -/

@[simp] theorem destructHolder_state (p : DestroyPath) (w : World) :
    (destructHolder p w).state = w.state := by
  unfold destructHolder
  by_cases h : w.weakRegistered = true <;> simp [h]

@[simp] theorem destructHolder_log (p : DestroyPath) (w : World) :
    (destructHolder p w).log = w.log := by
  unfold destructHolder
  by_cases h : w.weakRegistered = true <;> simp [h]

@[simp] theorem destructHolder_errors (p : DestroyPath) (w : World) :
    (destructHolder p w).errors = w.errors := by
  unfold destructHolder
  by_cases h : w.weakRegistered = true <;> simp [h]

@[simp] theorem destructHolder_reachable (p : DestroyPath) (w : World) :
    (destructHolder p w).reachable = w.reachable := by
  unfold destructHolder
  by_cases h : w.weakRegistered = true <;> simp [h]

@[simp] theorem destructHolder_holderAlive (p : DestroyPath) (w : World) :
    (destructHolder p w).holderAlive = false := by
  unfold destructHolder
  by_cases h : w.weakRegistered = true <;> simp [h]

@[simp] theorem destructHolder_weakRegistered (p : DestroyPath) (w : World) :
    (destructHolder p w).weakRegistered = false := by
  unfold destructHolder
  by_cases h : w.weakRegistered = true <;> simp_all [h]

@[simp] theorem destructHolder_destroyedBy (p : DestroyPath) (w : World) :
    (destructHolder p w).destroyedBy = w.destroyedBy ++ [p] := by
  unfold destructHolder
  by_cases h : w.weakRegistered = true <;> simp [h]

/-! ### The per-callable lifecycle invariant -/


theorem lifeInv_init (ot : Bool) : LifeInv (initWorld ot) := by
  cases ot <;>
    exact ⟨rfl, by decide, Or.inl rfl, by decide, by decide⟩

theorem lifeInv_step (w : World) (e : Event) (h : LifeInv w) : LifeInv (step w e) := by
  obtain ⟨h1, h2, h3, h4, h5⟩ := h
  cases e with
  | drop => exact ⟨h1, h2, h3, h4, fun _ => rfl⟩
  | gc =>
      simp only [step]
      by_cases hg : (!w.reachable && w.weakRegistered) = true
      · rw [if_pos hg]
        obtain ⟨hnr, hw⟩ := (Bool.and_eq_true _ _).mp hg
        have hr0 : w.reachable = false := by
          cases hreach : w.reachable
          · rfl
          · rw [hreach] at hnr; simp at hnr
        have hal : w.holderAlive = true := by rw [← h1]; exact hw
        have hdb : w.destroyedBy = [] := h2.mp hal
        refine ⟨?_, ?_, ?_, ?_, ?_⟩ <;> simp [hw, hdb, hr0]
      · rw [if_neg hg]
        exact ⟨h1, h2, h3, h4, h5⟩
  | invoke args =>
      simp only [step]
      cases hr : w.reachable with
      | false =>
          simp only [Bool.false_eq_true, if_false]
          exact ⟨h1, h2, h3, h4, h5⟩
      | true =>
          simp only [if_true]
          cases hOT : w.state.Has "oneTime" with
          | false =>
              rw [callTranslater_plain logRun w args hOT]
              exact ⟨h1, h2, h3, h4, h5⟩
          | true =>
              cases hC : w.state.Has "called" with
              | true =>
                  rw [callTranslater_already logRun w args hOT hC]
                  exact ⟨h1, h2, h3, h4, h5⟩
              | false =>
                  rw [callTranslater_fresh logRun w args hOT hC]
                  have hdb : w.destroyedBy = [] := by
                    rcases h3 with hd | hd | hd
                    · exact hd
                    · exact absurd (h5 hd) (by simp [hr])
                    · exact absurd (h4 hd) (by simp [hC])
                  have hal : w.holderAlive = true := h2.mpr hdb
                  have hw : w.weakRegistered = true := h1.trans hal
                  refine ⟨?_, ?_, ?_, ?_, ?_⟩ <;>
                    simp [logRun, hw, hdb, hr, Dict.Has_Set_self]

theorem lifeInv_exec (w : World) (tr : List Event) (h : LifeInv w) : LifeInv (exec w tr) := by
  induction tr generalizing w with
  | nil => exact h
  | cons e es ih => exact ih (step w e) (lifeInv_step w e h)

theorem exec_append (w : World) (t1 t2 : List Event) :
    exec w (t1 ++ t2) = exec (exec w t1) t2 := by
  induction t1 generalizing w with
  | nil => rfl
  | cons e es ih => simp only [List.cons_append, exec]; exact ih (step w e)

/-! ### Evolution of the metadata record along a trace -/

theorem step_state (w : World) (e : Event) :
    (step w e).state = w.state ∨ (step w e).state = w.state.Set "called" true := by
  cases e with
  | drop => exact Or.inl rfl
  | gc =>
      by_cases hg : (!w.reachable && w.weakRegistered) = true
      · left; simp [step, hg]
      · left; simp [step, hg]
  | invoke args =>
      cases hr : w.reachable with
      | false => left; simp [step, hr]
      | true =>
          cases hOT : w.state.Has "oneTime" with
          | false =>
              left
              simp [step, hr, callTranslater_plain logRun w args hOT, logRun]
          | true =>
              cases hC : w.state.Has "called" with
              | true =>
                  left
                  simp [step, hr, callTranslater_already logRun w args hOT hC]
              | false =>
                  right
                  simp [step, hr, callTranslater_fresh logRun w args hOT hC, logRun]

theorem step_state_has (w : World) (e : Event) (k : String)
    (hk : (step w e).state.Has k = true) : w.state.Has k = true ∨ k = "called" := by
  rcases step_state w e with h | h
  · rw [h] at hk; exact Or.inl hk
  · rw [h] at hk; exact Dict.Has_Set_imp _ _ _ _ hk

theorem exec_state_has (w : World) (tr : List Event) (k : String)
    (hk : (exec w tr).state.Has k = true) : w.state.Has k = true ∨ k = "called" := by
  induction tr generalizing w with
  | nil => exact Or.inl hk
  | cons e es ih =>
      rcases ih (step w e) hk with h | h
      · exact step_state_has w e k h
      · exact Or.inr h

theorem step_state_const (w : World) (e : Event)
    (h : w.state.Has "oneTime" = false) : (step w e).state = w.state := by
  cases e with
  | drop => rfl
  | gc =>
      by_cases hg : (!w.reachable && w.weakRegistered) = true
      · simp [step, hg]
      · simp [step, hg]
  | invoke args =>
      cases hr : w.reachable with
      | false => simp [step, hr]
      | true => simp [step, hr, callTranslater_plain logRun w args h, logRun]

theorem exec_state_const (w : World) (tr : List Event)
    (h : w.state.Has "oneTime" = false) : (exec w tr).state = w.state := by
  induction tr generalizing w with
  | nil => rfl
  | cons e es ih =>
      have h2 := step_state_const w e h
      rw [exec, ih (step w e) (by rw [h2]; exact h), h2]

/-- A non-one-shot callable's invocations just run the translater: the world
only accumulates log entries. -/
theorem exec_invokes (w : World) (as : List Args)
    (hOT : w.state.Has "oneTime" = false) (hr : w.reachable = true) :
    exec w (invokes as) = { w with log := w.log ++ as } := by
  induction as generalizing w with
  | nil => simp [invokes, exec]
  | cons a as ih =>
      have hstep : step w (Event.invoke a) = logRun a w := by
        simp [step, hr, callTranslater_plain logRun w a hOT]
      have ih2 := ih (logRun a w) hOT hr
      show exec w (Event.invoke a :: invokes as) = _
      rw [exec, hstep, ih2]
      simp [logRun]

/-! ### The factory and the cached template -/

theorem createFunction_cached (p : Process) (t : Nat) (b : Bool)
    (h : p.g_call_translater = some t) :
    CreateFunctionFromTranslater p b = (p, ⟨t, mkState b⟩) := by
  unfold CreateFunctionFromTranslater
  rw [h]

theorem runFactory_cached (bs : List Bool) (p : Process) (t : Nat)
    (h : p.g_call_translater = some t) :
    runFactory p bs = (p, bs.map fun b => ⟨t, mkState b⟩) := by
  induction bs with
  | nil => rfl
  | cons b bs ih => simp [runFactory, createFunction_cached p t b h, ih]

theorem createFunction_first (b : Bool) :
    CreateFunctionFromTranslater Process.init b =
      (⟨some 0, 1, 1⟩, ⟨0, mkState b⟩) := rfl

theorem createFunction_state (p : Process) (b : Bool) :
    (CreateFunctionFromTranslater p b).2.state = mkState b := by
  unfold CreateFunctionFromTranslater
  cases p.g_call_translater <;> rfl

/-- Once a world's holder has been destroyed (by either path), the weak
registration is detached, so a later GC pass performs nothing: the finalizer
can never fire on freed memory. -/
theorem drop_gc_exact (w : World) (h : LifeInv w) :
    (exec w [Event.drop, Event.gc]).destroyedBy.length = 1 := by
  obtain ⟨h1, h2, h3, h4, h5⟩ := h
  show (step (step w Event.drop) Event.gc).destroyedBy.length = 1
  cases hal : w.holderAlive with
  | true =>
      have hwk : w.weakRegistered = true := h1.trans hal
      have hdb : w.destroyedBy = [] := h2.mp hal
      simp [step, hwk, hdb]
  | false =>
      have hwk : w.weakRegistered = false := h1.trans hal
      have hne : w.destroyedBy ≠ [] := by
        intro hnil
        rw [h2.mpr hnil] at hal
        exact Bool.noConfusion hal
      rcases h3 with hd | hd | hd
      · exact absurd hd hne
      · simp [step, hwk, hd]
      · simp [step, hwk, hd]

/-! ### Claim theorems -/

/-- Claim C1 (amended): for a one-shot callable that has already been invoked
once, every subsequent invocation — whatever the translater would do — only
appends the already-called error "callback can only be called for once" to
the host-visible error channel: the NativeCallback is not run (the run log is
unchanged and the result does not depend on the translater), and holder,
weak-registration and metadata state are left untouched. -/
theorem c1_oneshot_second_invocation_errors (run : Args → World → World)
    (a1 a2 : Args) :
    CallTranslater run (CallTranslater logRun (initWorld true) a1) a2 =
      { CallTranslater logRun (initWorld true) a1 with
        errors := (CallTranslater logRun (initWorld true) a1).errors ++
          [alreadyCalledMsg] } ∧
    (CallTranslater run (CallTranslater logRun (initWorld true) a1) a2).log =
      [a1] ∧
    (CallTranslater run (CallTranslater logRun (initWorld true) a1) a2).errors =
      [alreadyCalledMsg] ∧
    alreadyCalledMsg = "callback can only be called for once" := by
  have hOT : (CallTranslater logRun (initWorld true) a1).state.Has "oneTime" =
      true := rfl
  have hC : (CallTranslater logRun (initWorld true) a1).state.Has "called" =
      true := rfl
  have heq := callTranslater_already run (CallTranslater logRun (initWorld true) a1) a2 hOT hC
  refine ⟨heq, ?_, ?_, rfl⟩
  · rw [heq]
    rfl
  · rw [heq]
    rfl

/-- Claim C1, counterexample to the claim as stated: the error raised on the
second invocation of a one-shot callable is the string "callback can only be
called for once", not "callback can only be called once". -/
theorem c1_message_counterexample :
    (CallTranslater logRun (CallTranslater logRun (initWorld true) [1]) [2]).errors =
      ["callback can only be called for once"] ∧
    ¬ ((CallTranslater logRun (CallTranslater logRun (initWorld true) [1]) [2]).errors =
      ["callback can only be called once"]) := by
  exact ⟨by decide, by decide⟩

/-- Claim C2: the first invocation of a one-shot callable runs the
NativeCallback exactly once (the run log of the fresh world becomes exactly
`[args]`), raises no error, and destroys the CallableHolder synchronously:
the world returned by the trampoline itself (before any collector event) has
the holder freed via the explicit one-shot path, and the trampoline's result
is literally the holder destructor applied immediately after the translater
run. -/
theorem c2_oneshot_first_invocation (args : Args) :
    (CallTranslater logRun (initWorld true) args).log = [args] ∧
    (CallTranslater logRun (initWorld true) args).holderAlive = false ∧
    (CallTranslater logRun (initWorld true) args).destroyedBy =
      [DestroyPath.oneShot] ∧
    (CallTranslater logRun (initWorld true) args).errors = [] ∧
    CallTranslater logRun (initWorld true) args =
      destructHolder DestroyPath.oneShot
        (logRun args
          { initWorld true with state := (initWorld true).state.Set "called" true }) := by
  exact ⟨rfl, rfl, rfl, rfl,
    callTranslater_fresh logRun (initWorld true) args rfl rfl⟩

/-- Claim C10: on a one-shot callable's first invocation the holder is
deleted unconditionally on the translater's outcome: even when the
NativeCallback signals a host-visible error while running, the world returned
by the trampoline has the holder destroyed through the one-shot path, the
weak registration detached, the callback run exactly once and the error
surfaced. -/
theorem c10_holder_deleted_despite_error (msg : String) (args : Args) :
    (CallTranslater (throwingRun msg) (initWorld true) args).holderAlive = false ∧
    (CallTranslater (throwingRun msg) (initWorld true) args).destroyedBy =
      [DestroyPath.oneShot] ∧
    (CallTranslater (throwingRun msg) (initWorld true) args).weakRegistered = false ∧
    (CallTranslater (throwingRun msg) (initWorld true) args).log = [args] ∧
    (CallTranslater (throwingRun msg) (initWorld true) args).errors = [msg] := by
  exact ⟨rfl, rfl, rfl, rfl, rfl⟩

/-- Claim C3: along every host-event trace from a fresh callable (one-shot or
not), the holder's destroy history is empty or a single entry — one of the
two paths, never both; once destroyed, the weak registration is detached, so
a GC pass is a no-op (the finalizer is never invoked on freed memory); and
extending any trace with "drop the callable, then a GC pass" leaves the
holder destroyed exactly once. -/
theorem c3_destroyed_exactly_once (ot : Bool) (tr : List Event) :
    ((exec (initWorld ot) tr).destroyedBy = [] ∨
     (exec (initWorld ot) tr).destroyedBy = [DestroyPath.finalizer] ∨
     (exec (initWorld ot) tr).destroyedBy = [DestroyPath.oneShot]) ∧
    ((exec (initWorld ot) tr).destroyedBy ≠ [] →
      (exec (initWorld ot) tr).weakRegistered = false ∧
      step (exec (initWorld ot) tr) Event.gc = exec (initWorld ot) tr) ∧
    (exec (initWorld ot) (tr ++ [Event.drop, Event.gc])).destroyedBy.length = 1 := by
  obtain ⟨h1, h2, h3, h4, h5⟩ := lifeInv_exec (initWorld ot) tr (lifeInv_init ot)
  refine ⟨h3, ?_, ?_⟩
  · intro hne
    have hal : (exec (initWorld ot) tr).holderAlive = false := by
      cases hcase : (exec (initWorld ot) tr).holderAlive
      · rfl
      · exact absurd (h2.mp hcase) hne
    have hwk : (exec (initWorld ot) tr).weakRegistered = false := h1.trans hal
    exact ⟨hwk, by simp [step, hwk]⟩
  · rw [exec_append]
    exact drop_gc_exact (exec (initWorld ot) tr)
      (lifeInv_exec (initWorld ot) tr (lifeInv_init ot))

/-- Claim C4: for a one-shot callable that has not been called yet, the
trampoline writes the `called` marker into the metadata record strictly
before the translater runs — the translater is applied to the world whose
record already carries `called` — and on any world whose record carries both
markers the trampoline (whatever translater it would run) only raises the
already-called error.  Consequently a translater that reentrantly invokes the
same trampoline during Run observes the marker: the run log gains exactly one
entry and the nested invocation raises the already-called error. -/
theorem c4_marker_written_before_run :
    (∀ (run : Args → World → World) (w : World) (args : Args),
       w.state.Has "oneTime" = true → w.state.Has "called" = false →
       CallTranslater run w args =
         destructHolder DestroyPath.oneShot
           (run args { w with state := w.state.Set "called" true }) ∧
       (w.state.Set "called" true).Has "called" = true) ∧
    (∀ (run : Args → World → World) (w : World) (args : Args),
       w.state.Has "oneTime" = true → w.state.Has "called" = true →
       CallTranslater run w args = { w with errors := w.errors ++ [alreadyCalledMsg] }) ∧
    (∀ (n : Nat) (args : Args),
       (CallTranslater (reentrantRun n) (initWorld true) args).log = [args]) ∧
    (∀ (n : Nat) (args : Args), 0 < n →
       (CallTranslater (reentrantRun n) (initWorld true) args).errors =
         [alreadyCalledMsg]) := by
  refine ⟨?_, ?_, ?_, ?_⟩
  · intro run w args hOT hC
    exact ⟨callTranslater_fresh run w args hOT hC,
      Dict.Has_Set_self w.state "called" true⟩
  · intro run w args hOT hC
    exact callTranslater_already run w args hOT hC
  · intro n args
    cases n with
    | zero => rfl
    | succ n =>
        rw [callTranslater_fresh (reentrantRun (n + 1)) (initWorld true) args rfl rfl]
        simp only [reentrantRun]
        rw [callTranslater_already (reentrantRun n)
          (logRun args
            { initWorld true with state := (initWorld true).state.Set "called" true })
          args rfl rfl]
        rfl
  · intro n args hn
    cases n with
    | zero => exact absurd hn (by decide)
    | succ n =>
        rw [callTranslater_fresh (reentrantRun (n + 1)) (initWorld true) args rfl rfl]
        simp only [reentrantRun]
        rw [callTranslater_already (reentrantRun n)
          (logRun args
            { initWorld true with state := (initWorld true).state.Set "called" true })
          args rfl rfl]
        rfl

/-- Claim C5: a callable produced with `one_time = false`, invoked once per
element of `as`, runs the translater exactly once per invocation with exactly
the supplied argument lists in order, raises no error, and its holder stays
allocated with the weak registration intact; moreover along any host-event
trace whatsoever the holder of a non-one-shot callable is only ever
reclaimed through the collector's finalizer path, never by the invocation
path. -/
theorem c5_multishot_runs_exactly (as : List Args) (tr : List Event) :
    (exec (initWorld false) (invokes as)).log = as ∧
    (exec (initWorld false) (invokes as)).holderAlive = true ∧
    (exec (initWorld false) (invokes as)).weakRegistered = true ∧
    (exec (initWorld false) (invokes as)).errors = [] ∧
    ((exec (initWorld false) tr).destroyedBy = [] ∨
     (exec (initWorld false) tr).destroyedBy = [DestroyPath.finalizer]) := by
  have he := exec_invokes (initWorld false) as rfl rfl
  refine ⟨?_, ?_, ?_, ?_, ?_⟩
  · rw [he]; rfl
  · rw [he]; rfl
  · rw [he]; rfl
  · rw [he]; rfl
  · obtain ⟨h1, h2, h3, h4, h5⟩ :=
      lifeInv_exec (initWorld false) tr (lifeInv_init false)
    rcases h3 with hd | hd | hd
    · exact Or.inl hd
    · exact Or.inr hd
    · exfalso
      have hc := h4 hd
      rw [exec_state_const (initWorld false) tr rfl] at hc
      exact absurd hc (by decide)

/-- Claim C6: `CreateFunctionFromTranslater` builds the metadata record as an
empty dictionary with the `oneTime` field set exactly when its `one_time`
argument is true and `called` absent; along any trace the record never holds
a key other than `oneTime` and `called`; and the trampoline's one-shot gating
is observable at call time if and only if `one_time` was true at creation. -/
theorem c6_metadata_record (p : Process) (ot : Bool) (a1 a2 : Args) :
    (CreateFunctionFromTranslater p ot).2.state = mkState ot ∧
    ((mkState ot).Has "oneTime" = ot ∧ (mkState ot).Has "called" = false) ∧
    (∀ (tr : List Event) (k : String),
       (exec (initWorld ot) tr).state.Has k = true →
       k = "oneTime" ∨ k = "called") ∧
    (((exec (initWorld ot) [Event.invoke a1, Event.invoke a2]).errors =
        [alreadyCalledMsg] ∧
      (exec (initWorld ot) [Event.invoke a1, Event.invoke a2]).log = [a1]) ↔
      ot = true) ∧
    (((exec (initWorld ot) [Event.invoke a1, Event.invoke a2]).errors = [] ∧
      (exec (initWorld ot) [Event.invoke a1, Event.invoke a2]).log = [a1, a2]) ↔
      ot = false) := by
  refine ⟨createFunction_state p ot, ?_, ?_, ?_, ?_⟩
  · cases ot <;> exact ⟨rfl, rfl⟩
  · intro tr k hk
    rcases exec_state_has (initWorld ot) tr k hk with h | h
    · left
      cases ot with
      | false =>
          have hs : (initWorld false).state = Dict.empty := rfl
          rw [hs] at h
          simp [Dict.Has, Dict.empty] at h
      | true =>
          have hs : (initWorld true).state = ⟨[("oneTime", true)]⟩ := rfl
          rw [hs] at h
          simp [Dict.Has] at h
          exact h.symm
    · exact Or.inr h
  · cases ot with
    | true => exact iff_of_true ⟨rfl, rfl⟩ rfl
    | false =>
        refine iff_of_false ?_ (by decide)
        intro hx
        have henv : (exec (initWorld false) [Event.invoke a1, Event.invoke a2]).errors =
            [] := rfl
        have hcontra := henv.symm.trans hx.1
        simp [alreadyCalledMsg] at hcontra
  · cases ot with
    | true =>
        refine iff_of_false ?_ (by decide)
        intro hx
        have henv : (exec (initWorld true) [Event.invoke a1, Event.invoke a2]).errors =
            [alreadyCalledMsg] := rfl
        have hcontra := henv.symm.trans hx.1
        simp [alreadyCalledMsg] at hcontra
    | false => exact iff_of_true ⟨rfl, rfl⟩ rfl

/-- Claim C7: a `RefCountedGlobal` (and its `SafeV8Function` wrapper) built
from a live host function value is alive and `NewHandle` returns the wrapped
value; whenever `IsAlive` is false, `NewHandle` returns the empty reference;
after the underlying handle is cleared `IsAlive` is false and stays false
(no operation of the wrapper restores the handle); and any live wrapper is
exactly one constructed from the value `NewHandle` returns. -/
theorem c7_safe_function_handle :
    (∀ v : Nat,
       (RefCountedGlobal.ofValue v).IsAlive = true ∧
       (RefCountedGlobal.ofValue v).NewHandle = some v ∧
       (SafeV8Function.ofValue v).IsAlive = true ∧
       (SafeV8Function.ofValue v).NewHandle = some v) ∧
    (∀ g : RefCountedGlobal, g.IsAlive = false → g.NewHandle = none) ∧
    (∀ g : RefCountedGlobal,
       (RefCountedGlobal.reset g).IsAlive = false ∧
       (RefCountedGlobal.reset g).NewHandle = none) ∧
    (∀ g : RefCountedGlobal, g.IsAlive = true →
       ∃ v, g.NewHandle = some v ∧ g = RefCountedGlobal.ofValue v) := by
  refine ⟨fun v => ⟨rfl, rfl, rfl, rfl⟩, ?_, fun g => ⟨rfl, rfl⟩, ?_⟩
  · intro g h
    cases hg : g.handle_ with
    | none => exact hg
    | some v =>
        exfalso
        simp [RefCountedGlobal.IsAlive, hg] at h
  · intro g h
    cases hg : g.handle_ with
    | none =>
        exfalso
        simp [RefCountedGlobal.IsAlive, hg] at h
    | some v =>
        refine ⟨v, hg, ?_⟩
        cases g
        exact congrArg (fun o => RefCountedGlobal.mk o) hg

/-- Claim C8: when the last reference is dropped, `DeleteOnUIThread` posts
the release to the UI (owner) thread exactly when a browser process is
active and the current thread is not the UI thread; when already on the UI
thread, or with no browser process active, it deletes inline. -/
theorem c8_delete_on_ui_thread (isBrowserProcess currentlyOnUIThread : Bool) :
    (DeleteOnUIThreadDestruct isBrowserProcess currentlyOnUIThread =
        DeleteAction.deleteSoonOnUI ↔
      isBrowserProcess = true ∧ currentlyOnUIThread = false) ∧
    (DeleteOnUIThreadDestruct isBrowserProcess currentlyOnUIThread =
        DeleteAction.deleteInline ↔
      currentlyOnUIThread = true ∨ isBrowserProcess = false) := by
  cases isBrowserProcess <;> cases currentlyOnUIThread <;> exact ⟨by decide, by decide⟩

/-- Claim C9: the trampoline template cache starts empty, the first
`CreateFunctionFromTranslater` call writes it (lazily) and every later call
leaves the process state — in particular the cached template and the write
count — unchanged, and every generated callable is bound to the one cached
template. -/
theorem c9_template_cached_once (bs : List Bool) :
    (bs = [] → runFactory Process.init bs = (Process.init, [])) ∧
    (bs ≠ [] →
      (runFactory Process.init bs).1.g_call_translater = some 0 ∧
      (runFactory Process.init bs).1.cacheWrites = 1) ∧
    (∀ f, f ∈ (runFactory Process.init bs).2 → f.template = 0) := by
  cases bs with
  | nil =>
      exact ⟨fun _ => rfl, fun h => absurd rfl h,
        fun f hf => absurd hf (List.not_mem_nil f)⟩
  | cons b bs =>
      have h1 : runFactory Process.init (b :: bs) =
          (⟨some 0, 1, 1⟩,
           (⟨0, mkState b⟩ : BoundFunction) :: bs.map fun x => ⟨0, mkState x⟩) := by
        simp [runFactory, createFunction_first b,
          runFactory_cached bs ⟨some 0, 1, 1⟩ 0 rfl]
      refine ⟨fun h => absurd h (by simp), fun _ => ?_, ?_⟩
      · rw [h1]
        exact ⟨rfl, rfl⟩
      · intro f hf
        rw [h1] at hf
        rcases List.mem_cons.mp hf with h | h
        · rw [h]
        · obtain ⟨x, _, hx⟩ := List.mem_map.mp h
          rw [← hx]

/-! ### Concrete witnesses -/

/-- Witness for C3 at the concrete trace of one invocation of a one-shot
callable: the weak registration is detached, a GC pass is a no-op, and
trailing drop+gc events leave exactly one destruction. -/
theorem c3_witness :
    ((exec (initWorld true) [Event.invoke [2]]).weakRegistered = false ∧
     step (exec (initWorld true) [Event.invoke [2]]) Event.gc =
       exec (initWorld true) [Event.invoke [2]]) ∧
    (exec (initWorld true)
        ([Event.invoke [2]] ++ [Event.drop, Event.gc])).destroyedBy.length = 1 :=
  ⟨(c3_destroyed_exactly_once true [Event.invoke [2]]).2.1 (by decide),
   (c3_destroyed_exactly_once true [Event.invoke [2]]).2.2⟩

/-- Witness for C4 at a concrete input: a fresh one-shot world takes the
mark-then-run-then-delete form, and a depth-1 reentrant translater sees the
already-called error. -/
theorem c4_witness :
    (CallTranslater logRun (initWorld true) [3] =
       destructHolder DestroyPath.oneShot
         (logRun [3]
           { initWorld true with
             state := (initWorld true).state.Set "called" true }) ∧
     ((initWorld true).state.Set "called" true).Has "called" = true) ∧
    (CallTranslater (reentrantRun 1) (initWorld true) [3]).errors =
      [alreadyCalledMsg] :=
  ⟨c4_marker_written_before_run.1 logRun (initWorld true) [3] (by decide) (by decide),
   c4_marker_written_before_run.2.2.2 1 [3] (by decide)⟩

/-- Witness for C6 at a concrete input: the key bound holds for the `called`
key after one invocation, and a one-shot callable invoked twice shows the
one-shot gating behavior. -/
theorem c6_witness :
    ("called" = "oneTime" ∨ "called" = "called") ∧
    ((exec (initWorld true) [Event.invoke [5], Event.invoke [6]]).errors =
       [alreadyCalledMsg] ∧
     (exec (initWorld true) [Event.invoke [5], Event.invoke [6]]).log = [[5]]) :=
  ⟨(c6_metadata_record Process.init true [5] [6]).2.2.1
      [Event.invoke [5]] "called" (by decide),
   ((c6_metadata_record Process.init true [5] [6]).2.2.2.1).mpr rfl⟩

/-- Witness for C7 at concrete handles: a live wrapper, an empty handle
yielding the empty reference, and a live handle recovered as a constructed
wrapper. -/
theorem c7_witness :
    (RefCountedGlobal.ofValue 7).IsAlive = true ∧
    RefCountedGlobal.NewHandle ⟨none⟩ = none ∧
    ∃ v, RefCountedGlobal.NewHandle ⟨some 9⟩ = some v ∧
      (⟨some 9⟩ : RefCountedGlobal) = RefCountedGlobal.ofValue v :=
  ⟨(c7_safe_function_handle.1 7).1,
   c7_safe_function_handle.2.1 ⟨none⟩ rfl,
   c7_safe_function_handle.2.2.2 ⟨some 9⟩ rfl⟩

/-- Witness for C8 at the three relevant thread/process situations. -/
theorem c8_witness :
    DeleteOnUIThreadDestruct true false = DeleteAction.deleteSoonOnUI ∧
    DeleteOnUIThreadDestruct true true = DeleteAction.deleteInline ∧
    DeleteOnUIThreadDestruct false false = DeleteAction.deleteInline :=
  ⟨(c8_delete_on_ui_thread true false).1.mpr ⟨rfl, rfl⟩,
   (c8_delete_on_ui_thread true true).2.mpr (Or.inl rfl),
   (c8_delete_on_ui_thread false false).2.mpr (Or.inr rfl)⟩

/-- Witness for C9 at a concrete two-element creation sequence. -/
theorem c9_witness :
    (runFactory Process.init [true, false]).1.g_call_translater = some 0 ∧
    (runFactory Process.init [true, false]).1.cacheWrites = 1 ∧
    BoundFunction.template ⟨0, mkState true⟩ = 0 :=
  ⟨((c9_template_cached_once [true, false]).2.1 (by decide)).1,
   ((c9_template_cached_once [true, false]).2.1 (by decide)).2,
   (c9_template_cached_once [true, false]).2.2 ⟨0, mkState true⟩ (by decide)⟩
